import Mathlib

/-!
Shallow embedding of the in-memory retrieval engine of the
`SimpleVectorStore` class (second source file of the repository):
document ingestion (`loadDocuments`), tokenization (`tokenize`),
set-similarity scoring (`calculateQuestionSimilarity`, `similaritySearch`),
keyword scoring (`keywordSearch`) and ranked fusion (`questionSearch`).

JavaScript numbers are modelled as rationals; the single place where the
code can produce `NaN` (the division `intersection.length / union.length`
when the union is empty, i.e. `0/0`) is modelled by returning `none` from
the similarity score, since `NaN` then propagates through `+` and
`Math.min` and makes every later `>=` comparison false.  JavaScript string
operations (`toLowerCase`, `trim`, `includes`, `split(/\s+/)`,
`replace(/[^\w\s]/g, ' ')`) are modelled character-wise over `List Char`,
which agrees with the JavaScript semantics on ASCII text.  `Array.sort`
with the comparator `(a, b) => b.similarity - a.similarity` is modelled as
a stable descending insertion sort.
-/

namespace SimpleVectorStore

/-- ASCII word characters, the class `\w = [A-Za-z0-9_]` of the regex in
`tokenize`. -/
def isWordChar (c : Char) : Bool :=
  ('a' ≤ c && c ≤ 'z') || ('A' ≤ c && c ≤ 'Z') || ('0' ≤ c && c ≤ '9') || c = '_'

/-- ASCII whitespace, the class `\s` of the regexes in `tokenize`,
`keywordSearch` and of `String.prototype.trim`. -/
def isSpaceChar (c : Char) : Bool :=
  c = ' ' || c = '\t' || c = '\n' || c = '\r' || c = '\x0b' || c = '\x0c'

/-- JavaScript `String.prototype.toLowerCase`, character-wise (ASCII). -/
def jsToLower (s : String) : String :=
  String.mk (s.toList.map Char.toLower)

/-- Whether `pat` is a leading segment of `hay`. -/
def isPrefixList : List Char → List Char → Bool
  | [], _ => true
  | _ :: _, [] => false
  | p :: ps, h :: hs => p = h && isPrefixList ps hs

/-- Whether `pat` occurs contiguously inside `hay`. -/
def containsSub (pat : List Char) : List Char → Bool
  | [] => isPrefixList pat []
  | h :: t => isPrefixList pat (h :: t) || containsSub pat t

/-- JavaScript `s.includes(pat)`: contiguous substring test. -/
def jsIncludes (s pat : String) : Bool :=
  containsSub pat.toList s.toList

/-- JavaScript `String.prototype.trim`: strip whitespace from both ends. -/
def jsTrim (s : String) : String :=
  String.mk (((s.toList.dropWhile isSpaceChar).reverse.dropWhile isSpaceChar).reverse)

/-- Split a character list at whitespace characters; `acc` holds the
(reversed) characters of the word currently being read.  Splitting at each
whitespace character instead of at runs only introduces extra empty words,
which every caller discards by a length filter, matching `split(/\s+/)`. -/
def splitOnSpaces : List Char → List Char → List (List Char)
  | [], acc => [acc.reverse]
  | c :: cs, acc =>
    if isSpaceChar c then acc.reverse :: splitOnSpaces cs []
    else splitOnSpaces cs (c :: acc)

/-- JavaScript `s.split(/\s+/)`, up to empty words (see `splitOnSpaces`). -/
def jsSplitWs (s : String) : List String :=
  (splitOnSpaces s.toList []).map String.mk

/-- One character of `text.replace(/[^\w\s]/g, ' ')`: anything that is
neither a word character nor whitespace becomes a space. -/
def replChar (c : Char) : Char :=
  if isWordChar c || isSpaceChar c then c else ' '

/-- The `tokenize` method:
`text.replace(/[^\w\s]/g, ' ').split(/\s+/).filter(t => t.length > 2).map(t => t.toLowerCase())`. -/
def tokenize (text : String) : List String :=
  (((splitOnSpaces (text.toList.map replChar) []).map String.mk).filter
    (fun t => 2 < t.length)).map jsToLower

/-- JavaScript `[...new Set(l)]`: remove duplicates keeping the first
occurrence; `seen` accumulates the values already emitted. -/
def jsSetDedupAux : List String → List String → List String
  | [], _ => []
  | x :: xs, seen =>
    if seen.contains x then jsSetDedupAux xs seen
    else x :: jsSetDedupAux xs (x :: seen)

/-- JavaScript `[...new Set(l)]` with an empty accumulator. -/
def jsSetDedup (l : List String) : List String :=
  jsSetDedupAux l []

/-- The fixed interrogative vocabulary of `calculateQuestionSimilarity`. -/
def questionWordList : List String :=
  ["how", "what", "where", "when", "why", "who", "which"]

/-- The `jaccard` local of `calculateQuestionSimilarity`:
`intersection.length / union.length` (meaningful only when the union is
nonempty; the caller handles the `0/0 = NaN` case separately). -/
def jaccardRatio (queryTokens docTokens : List String) : ℚ :=
  ((queryTokens.filter (fun t => docTokens.contains t)).length : ℚ) /
    ((jsSetDedup (queryTokens ++ docTokens)).length : ℚ)

/-- The `questionBoost` accumulation of `calculateQuestionSimilarity`:
`+0.1` for every interrogative word present in both token lists. -/
def questionBoost (queryTokens docTokens : List String) : ℚ :=
  questionWordList.foldl
    (fun acc w => if queryTokens.contains w && docTokens.contains w then acc + 1/10 else acc) 0

/-- The `calculateQuestionSimilarity` method.  When the union of the two
token lists is empty (both lists empty) the JavaScript division is
`0/0 = NaN`, which propagates through the boost addition and `Math.min`;
this is the `none` case.  Otherwise the result is
`Math.min(jaccard + questionBoost, 1.0)`. -/
def calculateQuestionSimilarity (queryTokens docTokens : List String) : Option ℚ :=
  if (jsSetDedup (queryTokens ++ docTokens)).length = 0 then none
  else some (min (jaccardRatio queryTokens docTokens + questionBoost queryTokens docTokens) 1)

/-- The `metadata` object stored per document by `loadDocuments`. -/
structure QAMetadata where
  source : String
  question : String
  answer : String
  qa_pair_id : ℕ
  question_length : ℕ
  answer_length : ℕ
  type : String
  deriving Repr, DecidableEq, Inhabited

/-- One entry of `this.documents`. -/
structure Document where
  id : String
  content : String
  metadata : QAMetadata
  tokens : List String
  deriving Repr, DecidableEq, Inhabited

/-- One entry of the result arrays built by the search methods. -/
structure ScoredResult where
  document : String
  metadata : QAMetadata
  similarity : ℚ
  deriving Repr, DecidableEq, Inhabited

/-- One CSV row as delivered by the csv-parser stream: each field either
absent or some string (an empty string is falsy in JavaScript). -/
structure QARecord where
  question : Option String
  answer : Option String
  source : Option String
  deriving Repr, DecidableEq, Inhabited

/-- JavaScript truthiness of an optional string field. -/
def truthyField : Option String → Bool
  | none => false
  | some s => !(s = "")

/-- The `question` const of the `loadDocuments` loop:
`String(row.question || '').trim()`. -/
def loadQuestion (row : QARecord) : String :=
  jsTrim (row.question.getD "")

/-- The `answer` const of the `loadDocuments` loop:
`String(row.answer || '').trim()`. -/
def loadAnswer (row : QARecord) : String :=
  jsTrim (row.answer.getD "")

/-- The `source` const of the `loadDocuments` loop:
`row.source || 'unknown'` (absent or empty string are both falsy). -/
def loadSource (row : QARecord) : String :=
  match row.source with
  | none => "unknown"
  | some s => if s = "" then "unknown" else s

/-- The per-row body of the `loadDocuments` loop at input position `index`:
skip unless `row.question && row.answer` are truthy; trim both fields;
default the source to "unknown"; skip empty/"nan"/short fields; otherwise
build the document with its tokens from the lower-cased question. -/
def mkDoc (index : ℕ) (row : QARecord) : Option Document :=
  if truthyField row.question && truthyField row.answer then
    if loadQuestion row = "" || loadQuestion row = "nan" || (loadQuestion row).length < 10 then
      none
    else if loadAnswer row = "" || loadAnswer row = "nan" || (loadAnswer row).length < 10 then
      none
    else some {
      id := "question_" ++ toString index
      content := loadQuestion row
      metadata := {
        source := loadSource row
        question := loadQuestion row
        answer := loadAnswer row
        qa_pair_id := index
        question_length := (loadQuestion row).length
        answer_length := (loadAnswer row).length
        type := "qa" }
      tokens := tokenize (jsToLower (loadQuestion row)) }
  else none

/-- The `loadDocuments` loop starting at input position `i`. -/
def loadFrom (i : ℕ) : List QARecord → List Document
  | [] => []
  | row :: rows =>
    match mkDoc i row with
    | some d => d :: loadFrom (i + 1) rows
    | none => loadFrom (i + 1) rows

/-- The `loadDocuments` method applied to the parsed CSV rows. -/
def loadDocuments (rows : List QARecord) : List Document :=
  loadFrom 0 rows

/-- Insert a result into a descending-sorted list, after every element of
score `≥` its own: the placement a stable sort gives the element. -/
def insertDesc (r : ScoredResult) : List ScoredResult → List ScoredResult
  | [] => [r]
  | x :: xs =>
    if x.similarity ≤ r.similarity then r :: x :: xs
    else x :: insertDesc r xs

/-- The JavaScript `results.sort((a, b) => b.similarity - a.similarity)`:
a stable descending sort on the `similarity` field. -/
def sortByScoreDesc : List ScoredResult → List ScoredResult
  | [] => []
  | x :: xs => insertDesc x (sortByScoreDesc xs)

/-- The filtering loop of `similaritySearch`: score every document and
keep those with `similarity >= threshold`.  A `NaN` score (`none`)
fails the comparison and is dropped. -/
def simFiltered (docs : List Document) (queryTokens : List String) (threshold : ℚ) :
    List ScoredResult :=
  docs.filterMap (fun doc =>
    match calculateQuestionSimilarity queryTokens doc.tokens with
    | none => none
    | some s => if threshold ≤ s then some ⟨doc.content, doc.metadata, s⟩ else none)

/-- The `similaritySearch` method on a loaded store (`this.documents = docs`):
filter by threshold, sort descending, return the top `k`. -/
def similaritySearch (docs : List Document) (query : String) (k : ℕ) (threshold : ℚ) :
    List ScoredResult :=
  (sortByScoreDesc (simFiltered docs (tokenize (jsToLower query)) threshold)).take k

/-- The per-document score accumulation of `keywordSearch`, with the
`questionLower`/`answerLower` consts inlined: start from the phrase
matches (+3 on the question, +2 on the answer), add +2/+1 per query word
found in the question/answer, then +0.5 for a source match. -/
def keywordScore (queryLower : String) (queryWords : List String) (m : QAMetadata) : ℚ :=
  queryWords.foldl
    (fun acc w =>
      (acc + (if jsIncludes (jsToLower m.question) w then 2 else 0)) +
        (if jsIncludes (jsToLower m.answer) w then 1 else 0))
    ((if jsIncludes (jsToLower m.question) queryLower then 3 else 0) +
      (if jsIncludes (jsToLower m.answer) queryLower then 2 else 0)) +
  (if jsIncludes (jsToLower m.source) queryLower then 1/2 else 0)

/-- The word list of `keywordSearch`:
`query.toLowerCase().split(/\s+/).filter(word => word.length > 2)`. -/
def keywordQueryWords (query : String) : List String :=
  (jsSplitWs (jsToLower query)).filter (fun w => 2 < w.length)

/-- The filtering loop of `keywordSearch`: push a result with score
`score / 10` for every document with a positive score. -/
def kwFiltered (docs : List Document) (query : String) : List ScoredResult :=
  docs.filterMap (fun doc =>
    let score := keywordScore (jsToLower query) (keywordQueryWords query) doc.metadata
    if 0 < score then some ⟨doc.content, doc.metadata, score / 10⟩ else none)

/-- The `keywordSearch` method on a loaded store. -/
def keywordSearch (docs : List Document) (query : String) (k : ℕ) : List ScoredResult :=
  (sortByScoreDesc (kwFiltered docs query)).take k

/-- The deduplication loop of `questionSearch`: keep a result only when
its `qa_pair_id` has not been seen before. -/
def dedupByQaIdAux : List ScoredResult → List ℕ → List ScoredResult
  | [], _ => []
  | r :: rest, seen =>
    if seen.contains r.metadata.qa_pair_id then dedupByQaIdAux rest seen
    else r :: dedupByQaIdAux rest (r.metadata.qa_pair_id :: seen)

/-- Deduplication of `questionSearch` with an empty `seenIds` set. -/
def dedupByQaId (l : List ScoredResult) : List ScoredResult :=
  dedupByQaIdAux l []

/-- The `questionSearch` method on a loaded store: run both scorers,
concatenate (similarity results first), deduplicate by `qa_pair_id`
(first occurrence wins), re-sort descending, return the top `k`. -/
def questionSearch (docs : List Document) (query : String) (k : ℕ) (threshold : ℚ) :
    List ScoredResult :=
  (sortByScoreDesc
    (dedupByQaId (similaritySearch docs query k threshold ++ keywordSearch docs query k))).take k

/-- Outcome of the asynchronous CSV read (`loadCSV`): either the ordered
rows, or the stream-level error the promise was rejected with. -/
inductive LoadOutcome where
  | ok (rows : List QARecord)
  | ioError (msg : String)
  deriving Repr, DecidableEq

/-- The `loadDocuments` method including its error path: a stream-level
read failure is logged and rethrown (`throw error`), so it surfaces to
whoever awaits `loadDocuments`; per-record skips happen inside
`loadDocuments` on the rows. -/
def loadDocumentsE : LoadOutcome → Except String (List Document)
  | .ok rows => .ok (loadDocuments rows)
  | .ioError msg => .error msg

/-- The `similaritySearch` method including initialization: it awaits
`initialize` (hence `loadDocuments`) inside its own `try`, and its
`catch` block returns `[]`, so a load failure is swallowed and an empty
result array is returned successfully. -/
def similaritySearchE (src : LoadOutcome) (query : String) (k : ℕ) (threshold : ℚ) :
    List ScoredResult :=
  match loadDocumentsE src with
  | .error _ => []
  | .ok docs => similaritySearch docs query k threshold

/-- The `questionSearch` method including initialization: both inner
searches swallow a load failure and return `[]`, and `questionSearch`
has the same catch-all of its own. -/
def questionSearchE (src : LoadOutcome) (query : String) (k : ℕ) (threshold : ℚ) :
    List ScoredResult :=
  match loadDocumentsE src with
  | .error _ => []
  | .ok docs => questionSearch docs query k threshold

/-- Keyword score as the specification words it (§4.4): a weighted sum of
the phrase, per-word and source clauses, divided by 10; matching is between
the lower-cased query (resp. word) and the lower-cased field, as fixed by
the first clause of §4.4. -/
def specKeywordScore (query : String) (m : QAMetadata) : ℚ :=
  let q := jsToLower query
  ((if jsIncludes (jsToLower m.question) q then (3 : ℚ) else 0) +
    (if jsIncludes (jsToLower m.answer) q then 2 else 0) +
    ((keywordQueryWords query).map
      (fun w => (if jsIncludes (jsToLower m.question) w then (2 : ℚ) else 0) +
        (if jsIncludes (jsToLower m.answer) w then 1 else 0))).sum +
    (if jsIncludes (jsToLower m.source) q then 1/2 else 0)) / 10

/-- Jaccard similarity of the two token lists viewed as sets, as the
specification's glossary words it: intersection size over union size. -/
def setJaccard (a b : List String) : ℚ :=
  ((a.toFinset ∩ b.toFinset).card : ℚ) / ((a.toFinset ∪ b.toFinset).card : ℚ)

/-! ### Character-level lemmas -/

theorem char_eq_of_toNat_eq {a b : Char} (h : a.toNat = b.toNat) : a = b :=
  Char.ext (UInt32.ext h)

theorem decide_char_eq (c a : Char) :
    (decide (c = a)) = (decide (c.toNat = a.toNat)) :=
  decide_eq_decide.2 ⟨fun h => by rw [h], fun h => char_eq_of_toNat_eq h⟩

/-- The word-character test as a predicate on code points. -/
def isWordCharN (n : ℕ) : Bool :=
  (97 ≤ n && n ≤ 122) || (65 ≤ n && n ≤ 90) || (48 ≤ n && n ≤ 57) || n = 95

/-- The whitespace test as a predicate on code points. -/
def isSpaceCharN (n : ℕ) : Bool :=
  n = 32 || n = 9 || n = 10 || n = 13 || n = 11 || n = 12

theorem isWordChar_eq_natTest (c : Char) : isWordChar c = isWordCharN c.toNat := by
  unfold isWordChar isWordCharN
  rw [decide_char_eq c '_']
  rfl

theorem isSpaceChar_eq_natTest (c : Char) : isSpaceChar c = isSpaceCharN c.toNat := by
  unfold isSpaceChar isSpaceCharN
  rw [decide_char_eq c ' ', decide_char_eq c '\t', decide_char_eq c '\n',
    decide_char_eq c '\r', decide_char_eq c '\x0b', decide_char_eq c '\x0c']
  rfl

theorem toNat_toLower (c : Char) :
    c.toLower.toNat = if 65 ≤ c.toNat ∧ c.toNat ≤ 90 then c.toNat + 32 else c.toNat := by
  unfold Char.toLower
  split
  case isTrue h =>
    rw [if_pos h]
    have hv : (c.toNat + 32).isValidChar := Or.inl (by omega)
    simp only [Char.ofNat, dif_pos hv]
    rfl
  case isFalse h => rw [if_neg h]

theorem isWordChar_toLower (c : Char) : isWordChar c.toLower = isWordChar c := by
  rw [isWordChar_eq_natTest, isWordChar_eq_natTest, toNat_toLower]
  by_cases h : 65 ≤ c.toNat ∧ c.toNat ≤ 90
  · rw [if_pos h, Bool.eq_iff_iff]
    simp only [isWordCharN, Bool.or_eq_true, Bool.and_eq_true, decide_eq_true_eq]
    omega
  · rw [if_neg h]

theorem isSpaceChar_toLower (c : Char) : isSpaceChar c.toLower = isSpaceChar c := by
  rw [isSpaceChar_eq_natTest, isSpaceChar_eq_natTest, toNat_toLower]
  by_cases h : 65 ≤ c.toNat ∧ c.toNat ≤ 90
  · rw [if_pos h, Bool.eq_iff_iff]
    simp only [isSpaceCharN, Bool.or_eq_true, decide_eq_true_eq]
    omega
  · rw [if_neg h]

theorem toLower_toLower (c : Char) : c.toLower.toLower = c.toLower := by
  apply char_eq_of_toNat_eq
  rw [toNat_toLower, toNat_toLower]
  by_cases h : 65 ≤ c.toNat ∧ c.toNat ≤ 90
  · rw [if_pos h, if_neg (by omega)]
  · rw [if_neg h, if_neg h]

/-! ### Tokenizer lemmas -/

theorem toList_jsToLower (s : String) : (jsToLower s).toList = s.toList.map Char.toLower := rfl

theorem length_jsToLower (s : String) : (jsToLower s).length = s.length := by
  show (s.toList.map Char.toLower).length = s.length
  rw [List.length_map]
  rfl

theorem jsToLower_jsToLower (s : String) : jsToLower (jsToLower s) = jsToLower s := by
  show String.mk ((String.mk (s.toList.map Char.toLower)).toList.map Char.toLower) =
    String.mk (s.toList.map Char.toLower)
  have h0 : (String.mk (s.toList.map Char.toLower)).toList = s.toList.map Char.toLower := rfl
  rw [h0, List.map_map]
  congr 1
  exact List.map_congr_left (fun c _ => toLower_toLower c)

theorem replChar_toLower (c : Char) : replChar c.toLower = (replChar c).toLower := by
  unfold replChar
  rw [isWordChar_toLower, isSpaceChar_toLower]
  by_cases h : (isWordChar c || isSpaceChar c) = true
  · rw [if_pos h, if_pos h]
  · rw [if_neg h, if_neg h]
    rfl

theorem splitOnSpaces_map_toLower (l : List Char) :
    ∀ acc, splitOnSpaces (l.map Char.toLower) (acc.map Char.toLower) =
      (splitOnSpaces l acc).map (List.map Char.toLower) := by
  induction l with
  | nil =>
    intro acc
    simp only [List.map_nil, splitOnSpaces, List.map_cons, List.map_reverse]
  | cons c cs ih =>
    intro acc
    simp only [List.map_cons, splitOnSpaces, isSpaceChar_toLower]
    by_cases h : isSpaceChar c = true
    · rw [if_pos h, if_pos h]
      have h0 := ih []
      simp only [List.map_nil] at h0
      rw [h0, List.map_cons, List.map_reverse]
    · rw [if_neg h, if_neg h]
      exact ih (c :: acc)

theorem tokenize_jsToLower (s : String) : tokenize (jsToLower s) = tokenize s := by
  unfold tokenize
  rw [toList_jsToLower]
  have h1 : (s.toList.map Char.toLower).map replChar =
      (s.toList.map replChar).map Char.toLower := by
    rw [List.map_map, List.map_map]
    exact List.map_congr_left (fun c _ => replChar_toLower c)
  rw [h1]
  have h2 := splitOnSpaces_map_toLower (s.toList.map replChar) []
  simp only [List.map_nil] at h2
  rw [h2]
  generalize splitOnSpaces (s.toList.map replChar) [] = words
  have h3 : (words.map (List.map Char.toLower)).map String.mk =
      (words.map String.mk).map jsToLower := by
    rw [List.map_map, List.map_map]
    rfl
  rw [h3]
  generalize words.map String.mk = parts
  have h4 : (parts.map jsToLower).filter (fun t => 2 < t.length) =
      (parts.filter (fun t => 2 < t.length)).map jsToLower := by
    rw [List.filter_map]
    congr 1
    exact List.filter_congr (fun t _ => by rw [Function.comp, length_jsToLower])
  rw [h4, List.map_map]
  exact List.map_congr_left (fun t _ => jsToLower_jsToLower t)

theorem splitOnSpaces_all_space (cs : List Char) (h : ∀ c ∈ cs, isSpaceChar c = true) :
    ∀ acc w, w ∈ splitOnSpaces cs acc → w.length ≤ acc.length := by
  induction cs with
  | nil =>
    intro acc w hw
    simp only [splitOnSpaces, List.mem_singleton] at hw
    rw [hw, List.length_reverse]
  | cons c cs ih =>
    intro acc w hw
    have hc := h c (List.mem_cons_self c cs)
    simp only [splitOnSpaces] at hw
    rw [if_pos hc] at hw
    rcases List.mem_cons.1 hw with h1 | h1
    · rw [h1, List.length_reverse]
    · have h2 := ih (fun x hx => h x (List.mem_cons_of_mem c hx)) [] w h1
      simp only [List.length_nil] at h2
      omega

theorem tokenize_all_space (s : String) (h : ∀ c ∈ s.toList, isSpaceChar c = true) :
    tokenize s = [] := by
  unfold tokenize
  have h1 : s.toList.map replChar = s.toList := by
    conv_rhs => rw [← List.map_id s.toList]
    refine List.map_congr_left (fun c hc => ?_)
    unfold replChar
    rw [h c hc, Bool.or_true, if_pos rfl]
    rfl
  rw [h1]
  have h2 : ((splitOnSpaces s.toList []).map String.mk).filter (fun t => 2 < t.length) = [] := by
    refine List.filter_eq_nil_iff.2 (fun t ht => ?_)
    rcases List.mem_map.1 ht with ⟨w, hw, rfl⟩
    have hlen := splitOnSpaces_all_space s.toList h [] w hw
    simp only [List.length_nil, Nat.le_zero] at hlen
    have : (String.mk w).length = w.length := rfl
    simp [this, hlen]
  rw [h2]
  rfl

theorem mem_tokenize (t s : String) (h : t ∈ tokenize s) :
    jsToLower t = t ∧ 2 < t.length := by
  unfold tokenize at h
  rcases List.mem_map.1 h with ⟨w, hw, rfl⟩
  rcases List.mem_filter.1 hw with ⟨-, hlen⟩
  refine ⟨jsToLower_jsToLower w, ?_⟩
  rw [length_jsToLower]
  exact of_decide_eq_true hlen

/-! ### Sorting lemmas -/

theorem mem_insertDesc (r x : ScoredResult) (l : List ScoredResult) :
    x ∈ insertDesc r l ↔ x = r ∨ x ∈ l := by
  induction l with
  | nil => simp [insertDesc]
  | cons y ys ih =>
    unfold insertDesc
    by_cases h : y.similarity ≤ r.similarity
    · rw [if_pos h]
      simp [List.mem_cons]
    · rw [if_neg h]
      simp only [List.mem_cons, ih]
      tauto

theorem insertDesc_perm (r : ScoredResult) (l : List ScoredResult) :
    (insertDesc r l).Perm (r :: l) := by
  induction l with
  | nil => simp [insertDesc]
  | cons y ys ih =>
    unfold insertDesc
    by_cases h : y.similarity ≤ r.similarity
    · rw [if_pos h]
    · rw [if_neg h]
      exact (ih.cons y).trans (List.Perm.swap r y ys)

theorem sortByScoreDesc_perm (l : List ScoredResult) : (sortByScoreDesc l).Perm l := by
  induction l with
  | nil => simp [sortByScoreDesc]
  | cons x xs ih =>
    unfold sortByScoreDesc
    exact (insertDesc_perm x (sortByScoreDesc xs)).trans (ih.cons x)

theorem pairwise_insertDesc (r : ScoredResult) (l : List ScoredResult)
    (h : l.Pairwise (fun a b => b.similarity ≤ a.similarity)) :
    (insertDesc r l).Pairwise (fun a b => b.similarity ≤ a.similarity) := by
  induction l with
  | nil => simp [insertDesc]
  | cons y ys ih =>
    rcases List.pairwise_cons.1 h with ⟨hy, hys⟩
    unfold insertDesc
    by_cases hc : y.similarity ≤ r.similarity
    · rw [if_pos hc]
      refine List.pairwise_cons.2 ⟨?_, h⟩
      intro b hb
      rcases List.mem_cons.1 hb with rfl | hb'
      · exact hc
      · exact le_trans (hy b hb') hc
    · rw [if_neg hc]
      refine List.pairwise_cons.2 ⟨?_, ih hys⟩
      intro b hb
      rcases (mem_insertDesc r b ys).1 hb with rfl | hb'
      · exact le_of_lt (lt_of_not_le hc)
      · exact hy b hb'

theorem sortByScoreDesc_sorted (l : List ScoredResult) :
    (sortByScoreDesc l).Pairwise (fun a b => b.similarity ≤ a.similarity) := by
  induction l with
  | nil => simp [sortByScoreDesc]
  | cons x xs ih =>
    unfold sortByScoreDesc
    exact pairwise_insertDesc x (sortByScoreDesc xs) ih

theorem sublist_insertDesc (x : ScoredResult) (S L : List ScoredResult) (h : S.Sublist L) :
    S.Sublist (insertDesc x L) := by
  induction L generalizing S with
  | nil =>
    rw [List.sublist_nil.1 h]
    exact List.nil_sublist _
  | cons y ys ih =>
    unfold insertDesc
    by_cases hc : y.similarity ≤ x.similarity
    · rw [if_pos hc]
      exact h.cons x
    · rw [if_neg hc]
      cases h with
      | cons _ h' => exact (ih _ h').cons y
      | cons₂ _ h' => exact (ih _ h').cons₂ y

theorem cons_sublist_insertDesc (a b : ScoredResult) (L : List ScoredResult)
    (hb : b ∈ L) (hle : b.similarity ≤ a.similarity) : [a, b].Sublist (insertDesc a L) := by
  induction L with
  | nil => cases hb
  | cons y ys ih =>
    unfold insertDesc
    by_cases hc : y.similarity ≤ a.similarity
    · rw [if_pos hc]
      exact (List.singleton_sublist.2 hb).cons₂ a
    · rw [if_neg hc]
      rcases List.mem_cons.1 hb with rfl | hb'
      · exact absurd hle hc
      · exact (ih hb').cons y

theorem sortByScoreDesc_stable (a b : ScoredResult) (l : List ScoredResult)
    (h : [a, b].Sublist l) (hle : b.similarity ≤ a.similarity) :
    [a, b].Sublist (sortByScoreDesc l) := by
  induction l with
  | nil => exact absurd (List.sublist_nil.1 h) (by simp)
  | cons x xs ih =>
    unfold sortByScoreDesc
    cases h with
    | cons _ h' => exact sublist_insertDesc x _ _ (ih h')
    | cons₂ _ h' =>
      have hb : b ∈ sortByScoreDesc xs :=
        (sortByScoreDesc_perm xs).mem_iff.2 (List.singleton_sublist.1 h')
      exact cons_sublist_insertDesc a b _ hb hle

/-! ### Deduplication lemmas -/

theorem mem_dedupByQaIdAux (l : List ScoredResult) (seen : List ℕ) (r : ScoredResult)
    (h : r ∈ dedupByQaIdAux l seen) : r ∈ l ∧ r.metadata.qa_pair_id ∉ seen := by
  induction l generalizing seen with
  | nil => cases h
  | cons x xs ih =>
    unfold dedupByQaIdAux at h
    by_cases hc : seen.contains x.metadata.qa_pair_id = true
    · rw [if_pos hc] at h
      rcases ih seen h with ⟨h1, h2⟩
      exact ⟨List.mem_cons_of_mem x h1, h2⟩
    · rw [if_neg hc] at h
      rcases List.mem_cons.1 h with heq | h'
      · subst heq
        exact ⟨List.mem_cons_self _ _, fun hm => hc (List.elem_iff.2 hm)⟩
      · rcases ih (x.metadata.qa_pair_id :: seen) h' with ⟨h1, h2⟩
        exact ⟨List.mem_cons_of_mem x h1, fun hm => h2 (List.mem_cons_of_mem _ hm)⟩

theorem pairwise_ne_dedupByQaIdAux (l : List ScoredResult) (seen : List ℕ) :
    (dedupByQaIdAux l seen).Pairwise
      (fun a b => a.metadata.qa_pair_id ≠ b.metadata.qa_pair_id) := by
  induction l generalizing seen with
  | nil => simp [dedupByQaIdAux]
  | cons x xs ih =>
    unfold dedupByQaIdAux
    by_cases hc : seen.contains x.metadata.qa_pair_id = true
    · rw [if_pos hc]
      exact ih seen
    · rw [if_neg hc]
      refine List.pairwise_cons.2 ⟨?_, ih _⟩
      intro b hb he
      have h2 := (mem_dedupByQaIdAux _ _ _ hb).2
      exact h2 (he ▸ List.mem_cons_self _ _)

theorem mem_dedup_append (A B : List ScoredResult) (seen : List ℕ) (r : ScoredResult)
    (h : r ∈ dedupByQaIdAux (A ++ B) seen) :
    r ∈ dedupByQaIdAux A seen ∨
      (r ∈ B ∧ r.metadata.qa_pair_id ∉ A.map (fun x => x.metadata.qa_pair_id)) := by
  induction A generalizing seen with
  | nil =>
    right
    rw [List.nil_append] at h
    exact ⟨(mem_dedupByQaIdAux B seen r h).1, by simp⟩
  | cons a A ih =>
    rw [List.cons_append] at h
    unfold dedupByQaIdAux at h ⊢
    by_cases hc : seen.contains a.metadata.qa_pair_id = true
    · rw [if_pos hc] at h ⊢
      rcases ih seen h with h1 | ⟨h1, h2⟩
      · exact Or.inl h1
      · refine Or.inr ⟨h1, ?_⟩
        have hns := (mem_dedupByQaIdAux _ _ _ h).2
        simp only [List.map_cons, List.mem_cons] at h2 ⊢
        push_neg
        refine ⟨fun he => hns (he ▸ List.elem_iff.1 hc), h2⟩
    · rw [if_neg hc] at h ⊢
      rcases List.mem_cons.1 h with rfl | h'
      · exact Or.inl (List.mem_cons_self _ _)
      · rcases ih (a.metadata.qa_pair_id :: seen) h' with h1 | ⟨h1, h2⟩
        · exact Or.inl (List.mem_cons_of_mem a h1)
        · refine Or.inr ⟨h1, ?_⟩
          have hns := (mem_dedupByQaIdAux _ _ _ h').2
          simp only [List.map_cons, List.mem_cons] at h2 ⊢
          push_neg
          exact ⟨fun he => hns (he ▸ List.mem_cons_self _ _), h2⟩

theorem mem_dedupByQaId_subset (l : List ScoredResult) (r : ScoredResult)
    (h : r ∈ dedupByQaId l) : r ∈ l :=
  (mem_dedupByQaIdAux l [] r h).1

/-! ### Similarity-score lemmas -/

theorem mem_jsSetDedupAux (l seen : List String) (y : String) (h : y ∈ jsSetDedupAux l seen) :
    y ∈ l ∧ y ∉ seen := by
  induction l generalizing seen with
  | nil => cases h
  | cons x xs ih =>
    unfold jsSetDedupAux at h
    by_cases hc : seen.contains x = true
    · rw [if_pos hc] at h
      rcases ih seen h with ⟨h1, h2⟩
      exact ⟨List.mem_cons_of_mem x h1, h2⟩
    · rw [if_neg hc] at h
      rcases List.mem_cons.1 h with heq | h'
      · subst heq
        exact ⟨List.mem_cons_self _ _, fun hm => hc (List.elem_iff.2 hm)⟩
      · rcases ih (x :: seen) h' with ⟨h1, h2⟩
        exact ⟨List.mem_cons_of_mem x h1, fun hm => h2 (List.mem_cons_of_mem _ hm)⟩

theorem nodup_jsSetDedupAux (l seen : List String) : (jsSetDedupAux l seen).Nodup := by
  induction l generalizing seen with
  | nil => simp [jsSetDedupAux]
  | cons x xs ih =>
    unfold jsSetDedupAux
    by_cases hc : seen.contains x = true
    · rw [if_pos hc]
      exact ih seen
    · rw [if_neg hc]
      refine List.Pairwise.cons ?_ (ih (x :: seen))
      intro b hb he
      exact (mem_jsSetDedupAux _ _ _ hb).2 (he ▸ List.mem_cons_self _ _)

theorem jsSetDedup_eq_nil_iff (l : List String) : jsSetDedup l = [] ↔ l = [] := by
  cases l with
  | nil => simp [jsSetDedup, jsSetDedupAux]
  | cons x xs => simp [jsSetDedup, jsSetDedupAux]

theorem boost_fold_lb (p : String → Bool) (ws : List String) :
    ∀ acc : ℚ, acc ≤ ws.foldl (fun acc w => if p w then acc + 1/10 else acc) acc := by
  induction ws with
  | nil => intro acc; simp
  | cons w ws ih =>
    intro acc
    rw [List.foldl_cons]
    refine le_trans ?_ (ih _)
    by_cases h : p w = true
    · rw [if_pos h]
      linarith
    · rw [if_neg h]

theorem questionBoost_nonneg (qt dt : List String) : 0 ≤ questionBoost qt dt :=
  boost_fold_lb (fun w => qt.contains w && dt.contains w) questionWordList 0

theorem jaccardRatio_nonneg (qt dt : List String) : 0 ≤ jaccardRatio qt dt :=
  div_nonneg (Nat.cast_nonneg _) (Nat.cast_nonneg _)

theorem calculateQuestionSimilarity_bounds (qt dt : List String) (r : ℚ)
    (h : calculateQuestionSimilarity qt dt = some r) : 0 ≤ r ∧ r ≤ 1 := by
  unfold calculateQuestionSimilarity at h
  by_cases hc : (jsSetDedup (qt ++ dt)).length = 0
  · rw [if_pos hc] at h
    cases h
  · rw [if_neg hc] at h
    injection h with h
    subst h
    exact ⟨le_min (add_nonneg (jaccardRatio_nonneg qt dt) (questionBoost_nonneg qt dt))
      zero_le_one, min_le_right _ _⟩

theorem calculateQuestionSimilarity_self (t : List String) (h : t ≠ []) :
    calculateQuestionSimilarity t t = some 1 := by
  have hne : jsSetDedup (t ++ t) ≠ [] := by
    intro h0
    exact h (List.append_eq_nil.1 ((jsSetDedup_eq_nil_iff (t ++ t)).1 h0)).1
  have hpos : 0 < (jsSetDedup (t ++ t)).length := List.length_pos.2 hne
  unfold calculateQuestionSimilarity
  rw [if_neg (Nat.pos_iff_ne_zero.1 hpos)]
  congr 1
  have hsub : ∀ y ∈ jsSetDedup (t ++ t), y ∈ t := by
    intro y hy
    rcases List.mem_append.1 (mem_jsSetDedupAux (t ++ t) [] y hy).1 with h1 | h1 <;> exact h1
  have hlen : (jsSetDedup (t ++ t)).length ≤ t.length :=
    ((nodup_jsSetDedupAux (t ++ t) []).subperm hsub).length_le
  have hint : t.filter (fun x => t.contains x) = t :=
    List.filter_eq_self.2 (fun a ha => List.elem_iff.2 ha)
  have hj : 1 ≤ jaccardRatio t t := by
    unfold jaccardRatio
    rw [hint, le_div_iff₀ (by exact_mod_cast hpos), one_mul]
    exact_mod_cast hlen
  exact min_eq_right (le_trans hj (le_add_of_nonneg_right (questionBoost_nonneg t t)))

/-! ### Ingestion lemmas -/

theorem mkDoc_fields (i : ℕ) (row : QARecord) (d : Document) (h : mkDoc i row = some d) :
    d.metadata.question = jsTrim (row.question.getD "") ∧
    d.metadata.answer = jsTrim (row.answer.getD "") ∧
    10 ≤ d.metadata.question.length ∧ d.metadata.question ≠ "nan" ∧
    10 ≤ d.metadata.answer.length ∧ d.metadata.answer ≠ "nan" ∧
    (row.source = none → d.metadata.source = "unknown") ∧
    d.metadata.qa_pair_id = i ∧
    d.content = d.metadata.question ∧
    d.tokens = tokenize (jsToLower d.metadata.question) := by
  unfold mkDoc at h
  by_cases h1 : (truthyField row.question && truthyField row.answer) = true
  swap
  · rw [if_neg h1] at h
    cases h
  rw [if_pos h1] at h
  by_cases h2 : (loadQuestion row = "" || loadQuestion row = "nan" ||
      decide ((loadQuestion row).length < 10)) = true
  · rw [if_pos h2] at h
    cases h
  rw [if_neg h2] at h
  by_cases h3 : (loadAnswer row = "" || loadAnswer row = "nan" ||
      decide ((loadAnswer row).length < 10)) = true
  · rw [if_pos h3] at h
    cases h
  rw [if_neg h3] at h
  injection h with h
  subst h
  simp only [Bool.or_eq_true, decide_eq_true_eq, not_or, not_lt] at h2 h3
  refine ⟨rfl, rfl, h2.2, h2.1.2, h3.2, h3.1.2, ?_, rfl, rfl, rfl⟩
  intro hs
  simp only [loadSource, hs]

theorem mem_loadFrom (rows : List QARecord) :
    ∀ (i : ℕ) (d : Document), d ∈ loadFrom i rows →
      ∃ j row, rows[j]? = some row ∧ mkDoc (i + j) row = some d := by
  induction rows with
  | nil => intro i d h; cases h
  | cons row rows ih =>
    intro i d h
    unfold loadFrom at h
    cases hm : mkDoc i row with
    | some d0 =>
      rw [hm] at h
      rcases List.mem_cons.1 h with heq | h'
      · refine ⟨0, row, by simp, ?_⟩
        rw [Nat.add_zero, hm, heq]
      · rcases ih (i + 1) d h' with ⟨j, r2, hj, hmk⟩
        refine ⟨j + 1, r2, by simpa using hj, ?_⟩
        rw [show i + (j + 1) = i + 1 + j from by omega]
        exact hmk
    | none =>
      rw [hm] at h
      rcases ih (i + 1) d h with ⟨j, r2, hj, hmk⟩
      refine ⟨j + 1, r2, by simpa using hj, ?_⟩
      rw [show i + (j + 1) = i + 1 + j from by omega]
      exact hmk

theorem loadFrom_id_lb (rows : List QARecord) (i : ℕ) (d : Document)
    (h : d ∈ loadFrom i rows) : i ≤ d.metadata.qa_pair_id := by
  rcases mem_loadFrom rows i d h with ⟨j, row, -, hmk⟩
  have := (mkDoc_fields (i + j) row d hmk).2.2.2.2.2.2.2.1
  omega

theorem loadFrom_ids_pairwise (rows : List QARecord) :
    ∀ i : ℕ, (loadFrom i rows).Pairwise
      (fun a b => a.metadata.qa_pair_id < b.metadata.qa_pair_id) := by
  induction rows with
  | nil => intro i; simp [loadFrom]
  | cons row rows ih =>
    intro i
    unfold loadFrom
    cases hm : mkDoc i row with
    | none => exact ih (i + 1)
    | some d0 =>
      refine List.Pairwise.cons ?_ (ih (i + 1))
      intro b hb
      have hb1 := loadFrom_id_lb rows (i + 1) b hb
      have hd0 := (mkDoc_fields i row d0 hm).2.2.2.2.2.2.2.1
      omega

theorem mem_loadDocuments (rows : List QARecord) (d : Document)
    (h : d ∈ loadDocuments rows) :
    ∃ j row, rows[j]? = some row ∧ mkDoc j row = some d ∧ d.metadata.qa_pair_id = j := by
  rcases mem_loadFrom rows 0 d h with ⟨j, row, hj, hmk⟩
  rw [Nat.zero_add] at hmk
  exact ⟨j, row, hj, hmk, (mkDoc_fields j row d hmk).2.2.2.2.2.2.2.1⟩

/-! ### Search-level lemmas -/

theorem mem_simFiltered (docs : List Document) (qt : List String) (threshold : ℚ)
    (r : ScoredResult) (h : r ∈ simFiltered docs qt threshold) :
    ∃ doc ∈ docs, calculateQuestionSimilarity qt doc.tokens = some r.similarity ∧
      threshold ≤ r.similarity ∧ r.document = doc.content ∧ r.metadata = doc.metadata := by
  rcases List.mem_filterMap.1 h with ⟨doc, hdoc, hf⟩
  split at hf
  next => cases hf
  next s hcs =>
    split at hf
    next ht =>
      injection hf with hf
      subst hf
      exact ⟨doc, hdoc, hcs, ht, rfl, rfl⟩
    next => cases hf

theorem mem_kwFiltered (docs : List Document) (query : String) (r : ScoredResult)
    (h : r ∈ kwFiltered docs query) :
    ∃ doc ∈ docs,
      0 < keywordScore (jsToLower query) (keywordQueryWords query) doc.metadata ∧
      r = ⟨doc.content, doc.metadata,
        keywordScore (jsToLower query) (keywordQueryWords query) doc.metadata / 10⟩ := by
  rcases List.mem_filterMap.1 h with ⟨doc, hdoc, hf⟩
  by_cases hs : 0 < keywordScore (jsToLower query) (keywordQueryWords query) doc.metadata
  · rw [if_pos hs] at hf
    injection hf with hf
    exact ⟨doc, hdoc, hs, hf.symm⟩
  · rw [if_neg hs] at hf
    cases hf

theorem foldl_add_pair (f g : String → ℚ) (l : List String) :
    ∀ acc : ℚ, l.foldl (fun x w => (x + f w) + g w) acc =
      acc + (l.map (fun w => f w + g w)).sum := by
  induction l with
  | nil => intro acc; simp
  | cons w ws ih =>
    intro acc
    rw [List.foldl_cons, ih, List.map_cons, List.sum_cons]
    ring

theorem ite_nonneg_q (c : Prop) [Decidable c] (x : ℚ) (hx : 0 ≤ x) :
    0 ≤ if c then x else 0 := by
  split
  · exact hx
  · exact le_refl 0

theorem keywordScore_eq_spec (query : String) (m : QAMetadata) :
    keywordScore (jsToLower query) (keywordQueryWords query) m / 10 =
      specKeywordScore query m := by
  unfold keywordScore specKeywordScore
  rw [foldl_add_pair]

theorem keywordScore_nonneg (ql : String) (ws : List String) (m : QAMetadata) :
    0 ≤ keywordScore ql ws m := by
  unfold keywordScore
  rw [foldl_add_pair]
  refine add_nonneg (add_nonneg (add_nonneg ?_ ?_) ?_) ?_
  · exact ite_nonneg_q _ _ (by norm_num)
  · exact ite_nonneg_q _ _ (by norm_num)
  · refine List.sum_nonneg (fun x hx => ?_)
    rcases List.mem_map.1 hx with ⟨w, -, rfl⟩
    exact add_nonneg (ite_nonneg_q _ _ (by norm_num)) (ite_nonneg_q _ _ (by norm_num))
  · exact ite_nonneg_q _ _ (by norm_num)

theorem specKeywordScore_nonneg (query : String) (m : QAMetadata) :
    0 ≤ specKeywordScore query m := by
  rw [← keywordScore_eq_spec]
  exact div_nonneg (keywordScore_nonneg _ _ _) (by norm_num)

/-! ### A concrete demonstration corpus

Two rows that both pass ingestion.  `rowA`'s question is later used
verbatim as a query; `rowB`'s question contains `rowA`'s question as a
substring but has ten extra tokens, so its set similarity to that query is
low while its keyword score is high. -/

/-- Demo row 0: its question is used verbatim as a query. -/
def rowA : QARecord :=
  ⟨some "how reset password", some "click the settings button", none⟩

/-- Demo row 1: 13-token question containing row 0's question, and an
answer that also contains it. -/
def rowB : QARecord :=
  ⟨some "alpha beta gamma delta epsilon zeta eta theta iota kappa how reset password",
   some "you should how reset password now", some "wiki"⟩

/-- The demo corpus as loaded by `loadDocuments`. -/
def demoDocs : List Document := loadDocuments [rowA, rowB]

/-- The document built from demo row 0. -/
def docA : Document := (mkDoc 0 rowA).getD default

/-- The document built from demo row 1. -/
def docB : Document := (mkDoc 1 rowB).getD default

/-- Document 0's similarity-scorer entry for the verbatim query. -/
def resA : ScoredResult := ⟨docA.content, docA.metadata, 1⟩

/-- Document 1's keyword-scorer entry for the verbatim query. -/
def resBkw : ScoredResult := ⟨docB.content, docB.metadata, 7/5⟩

/-! ### Claim theorems -/

/-- C1, counterexample: with both token sequences empty the union is empty
and the JavaScript division `0/0` yields `NaN` (modelled `none`), so
`calculateQuestionSimilarity` does not return 0 there, contradicting the
claim that the empty union is "defined as similarity 0". -/
theorem similarity_empty_union_is_nan :
    calculateQuestionSimilarity [] [] = none ∧
    calculateQuestionSimilarity [] [] ≠ some 0 := by
  refine ⟨rfl, ?_⟩
  intro h
  rw [show calculateQuestionSimilarity [] [] = none from rfl] at h
  cases h

/-- C1, amended: when at least one token sequence is nonempty the score is
a rational in `[0, 1]`; when both are empty the result is the `NaN` of the
JavaScript `0/0` (modelled `none`), not 0 — every downstream `>=`
comparison rejects it, so no fault occurs, but the claimed value 0 is
never produced. -/
theorem similarity_range_amended (qt dt : List String) :
    (qt = [] → dt = [] → calculateQuestionSimilarity qt dt = none) ∧
    ((qt ≠ [] ∨ dt ≠ []) →
      ∃ r : ℚ, calculateQuestionSimilarity qt dt = some r ∧ 0 ≤ r ∧ r ≤ 1) := by
  constructor
  · rintro rfl rfl
    rfl
  · intro h
    have hne : jsSetDedup (qt ++ dt) ≠ [] := by
      intro h0
      rcases List.append_eq_nil.1 ((jsSetDedup_eq_nil_iff _).1 h0) with ⟨h1, h2⟩
      rcases h with h | h
      · exact h h1
      · exact h h2
    have hc : ¬((jsSetDedup (qt ++ dt)).length = 0) := by
      simpa [List.length_eq_zero] using hne
    unfold calculateQuestionSimilarity
    rw [if_neg hc]
    exact ⟨_, rfl,
      le_min (add_nonneg (jaccardRatio_nonneg qt dt) (questionBoost_nonneg qt dt)) zero_le_one,
      min_le_right _ _⟩

/-- C1, witness: the amended range statement at a concrete nonempty query. -/
theorem similarity_range_amended_witness :
    ∃ r : ℚ, calculateQuestionSimilarity ["abc"] [] = some r ∧ 0 ≤ r ∧ r ≤ 1 :=
  (similarity_range_amended ["abc"] []).2 (Or.inl (by simp))

/-- C2: the fused `questionSearch` output has pairwise-distinct
`qa_pair_id`s, length at most `k`, is sorted descending by score, and any
returned entry whose `qa_pair_id` occurs among the similarity results IS
the similarity scorer's entry (first occurrence wins, similarity results
are concatenated first). -/
theorem questionSearch_fused_spec (docs : List Document) (query : String) (k : ℕ)
    (threshold : ℚ) :
    (questionSearch docs query k threshold).Pairwise
      (fun a b => a.metadata.qa_pair_id ≠ b.metadata.qa_pair_id) ∧
    (questionSearch docs query k threshold).length ≤ k ∧
    (questionSearch docs query k threshold).Pairwise
      (fun a b => b.similarity ≤ a.similarity) ∧
    (∀ r ∈ questionSearch docs query k threshold,
      r.metadata.qa_pair_id ∈ (similaritySearch docs query k threshold).map
        (fun x => x.metadata.qa_pair_id) →
      r ∈ similaritySearch docs query k threshold) := by
  refine ⟨?_, List.length_take_le k _, ?_, ?_⟩
  · have h1 := pairwise_ne_dedupByQaIdAux
      (similaritySearch docs query k threshold ++ keywordSearch docs query k) []
    have h2 := ((sortByScoreDesc_perm
        (dedupByQaId (similaritySearch docs query k threshold ++
          keywordSearch docs query k))).pairwise_iff
      (fun hxy => fun he => hxy he.symm)).2 h1
    exact h2.sublist (List.take_sublist k _)
  · exact (sortByScoreDesc_sorted _).sublist (List.take_sublist k _)
  · intro r hr hid
    have hr1 : r ∈ sortByScoreDesc (dedupByQaId (similaritySearch docs query k threshold ++
        keywordSearch docs query k)) := (List.take_sublist k _).subset hr
    have hr2 := (sortByScoreDesc_perm _).mem_iff.1 hr1
    rcases mem_dedup_append (similaritySearch docs query k threshold)
        (keywordSearch docs query k) [] r hr2 with h1 | ⟨-, h2⟩
    · exact (mem_dedupByQaIdAux _ _ _ h1).1
    · exact absurd hid h2

/-- C2, witness: the fused-search contract at the demo corpus; the entry
whose `qa_pair_id` occurs in the similarity list is the similarity entry. -/
theorem questionSearch_fused_spec_witness :
    (questionSearch demoDocs "how reset password" 5 (2/5)).length ≤ 5 ∧
    resA ∈ similaritySearch demoDocs "how reset password" 5 (2/5) :=
  ⟨(questionSearch_fused_spec demoDocs "how reset password" 5 (2/5)).2.1,
   (questionSearch_fused_spec demoDocs "how reset password" 5 (2/5)).2.2.2 resA
     (by with_unfolding_all decide) (by with_unfolding_all decide)⟩

/-- C3, counterexample: the query is verbatim the question of document 0,
yet the fused output ranks document 1 first — its keyword score 1.4
exceeds document 0's capped similarity score 1.  The claim that the
verbatim document's score is `≥` every other candidate's is false. -/
theorem verbatim_query_not_ranked_first :
    docA.metadata.question = "how reset password" ∧
    docA.metadata.qa_pair_id = 0 ∧
    demoDocs = [docA, docB] ∧
    (questionSearch demoDocs "how reset password" 5 (2/5)).map
      (fun r => (r.metadata.qa_pair_id, r.similarity)) = [(1, 7/5), (0, 1)] := by
  with_unfolding_all decide

/-- C3, amended: a query identical to a stored question (with a nonempty
token list) attains similarity score exactly 1, the maximum the similarity
scorer ever assigns — but it need not rank first in the fused output,
because keyword scores may exceed 1 (see the counterexample). -/
theorem verbatim_query_attains_max_similarity (q : String)
    (h : tokenize (jsToLower q) ≠ []) :
    calculateQuestionSimilarity (tokenize (jsToLower q)) (tokenize (jsToLower q)) = some 1 ∧
    ∀ (dt : List String) (r : ℚ),
      calculateQuestionSimilarity (tokenize (jsToLower q)) dt = some r → r ≤ 1 :=
  ⟨calculateQuestionSimilarity_self _ h,
   fun dt r hr => (calculateQuestionSimilarity_bounds _ dt r hr).2⟩

/-- C3, witness: the amended statement at the concrete verbatim query. -/
theorem verbatim_query_attains_max_similarity_witness :
    calculateQuestionSimilarity (tokenize (jsToLower "how reset password"))
      (tokenize (jsToLower "how reset password")) = some 1 :=
  (verbatim_query_attains_max_similarity "how reset password" (by decide)).1

/-- C4: a stream-level read failure does surface from `loadDocuments`
(rethrown to its awaiter) and the index stays empty, BUT the search
methods' catch-alls swallow that failure and return an empty-but-successful
result array — the engine serves queries as if the corpus were empty,
contradicting the stated error policy.  This theorem evaluates the code at
the failing input. -/
theorem load_failure_yields_empty_success :
    loadDocumentsE (.ioError "ENOENT") = .error "ENOENT" ∧
    similaritySearchE (.ioError "ENOENT") "query text" 5 (2/5) = [] ∧
    questionSearchE (.ioError "ENOENT") "query text" 5 (2/5) = [] :=
  ⟨rfl, rfl, rfl⟩

/-- C5: `similaritySearch` returns at most `k` results, every result's
score is `≥ threshold`, the output is sorted descending, the sort is
stable (ties keep corpus order), and on a loaded corpus each result's
`document` field is the question text. -/
theorem similaritySearch_contract (docs : List Document) (query : String) (k : ℕ)
    (threshold : ℚ) :
    (similaritySearch docs query k threshold).length ≤ k ∧
    (∀ r ∈ similaritySearch docs query k threshold, threshold ≤ r.similarity) ∧
    (similaritySearch docs query k threshold).Pairwise
      (fun a b => b.similarity ≤ a.similarity) ∧
    (∀ a b : ScoredResult,
      [a, b].Sublist (simFiltered docs (tokenize (jsToLower query)) threshold) →
      a.similarity = b.similarity →
      [a, b].Sublist
        (sortByScoreDesc (simFiltered docs (tokenize (jsToLower query)) threshold))) ∧
    (∀ rows : List QARecord, docs = loadDocuments rows →
      ∀ r ∈ similaritySearch docs query k threshold, r.document = r.metadata.question) := by
  refine ⟨List.length_take_le k _, ?_, ?_, ?_, ?_⟩
  · intro r hr
    have hr1 : r ∈ sortByScoreDesc (simFiltered docs (tokenize (jsToLower query)) threshold) :=
      (List.take_sublist k _).subset hr
    have hr2 := (sortByScoreDesc_perm _).mem_iff.1 hr1
    rcases mem_simFiltered _ _ _ _ hr2 with ⟨doc, -, -, ht, -, -⟩
    exact ht
  · exact (sortByScoreDesc_sorted _).sublist (List.take_sublist k _)
  · intro a b hab heq
    exact sortByScoreDesc_stable a b _ hab (le_of_eq heq.symm)
  · intro rows hrows r hr
    have hr1 : r ∈ sortByScoreDesc (simFiltered docs (tokenize (jsToLower query)) threshold) :=
      (List.take_sublist k _).subset hr
    have hr2 := (sortByScoreDesc_perm _).mem_iff.1 hr1
    rcases mem_simFiltered _ _ _ _ hr2 with ⟨doc, hdoc, -, -, hcontent, hmeta⟩
    subst hrows
    rcases mem_loadDocuments _ _ hdoc with ⟨j, row, -, hmk, -⟩
    have h9 := (mkDoc_fields j row doc hmk).2.2.2.2.2.2.2.2.1
    rw [hcontent, hmeta, h9]

/-- C5, witness: the contract at the demo corpus; the single returned
result is document 0's question text. -/
theorem similaritySearch_contract_witness :
    (similaritySearch demoDocs "how reset password" 5 (2/5)).length ≤ 5 ∧
    resA.document = resA.metadata.question :=
  ⟨(similaritySearch_contract demoDocs "how reset password" 5 (2/5)).1,
   (similaritySearch_contract demoDocs "how reset password" 5 (2/5)).2.2.2.2 [rowA, rowB] rfl
     resA (by with_unfolding_all decide)⟩

/-- C6: the keyword score of every document equals the specification's
weighted-clause sum divided by 10; that value is always `≥ 0`; every
returned entry has a strictly positive score (score-0 documents are
excluded) equal to the specification formula; and the output is sorted
descending and truncated to `k`. -/
theorem keywordSearch_contract (docs : List Document) (query : String) (k : ℕ) :
    (∀ m : QAMetadata,
      keywordScore (jsToLower query) (keywordQueryWords query) m / 10 =
        specKeywordScore query m ∧ 0 ≤ specKeywordScore query m) ∧
    (∀ r ∈ keywordSearch docs query k, 0 < r.similarity ∧
      ∃ doc ∈ docs, r.metadata = doc.metadata ∧
        r.similarity = specKeywordScore query doc.metadata) ∧
    (keywordSearch docs query k).Pairwise (fun a b => b.similarity ≤ a.similarity) ∧
    (keywordSearch docs query k).length ≤ k := by
  refine ⟨fun m => ⟨keywordScore_eq_spec query m, specKeywordScore_nonneg query m⟩, ?_,
    (sortByScoreDesc_sorted _).sublist (List.take_sublist k _), List.length_take_le k _⟩
  intro r hr
  have hr1 : r ∈ sortByScoreDesc (kwFiltered docs query) := (List.take_sublist k _).subset hr
  have hr2 := (sortByScoreDesc_perm _).mem_iff.1 hr1
  rcases mem_kwFiltered _ _ _ hr2 with ⟨doc, hdoc, hpos, heq⟩
  subst heq
  refine ⟨div_pos hpos (by norm_num), doc, hdoc, rfl, ?_⟩
  exact keywordScore_eq_spec query doc.metadata

/-- C6, witness: the contract at the demo corpus: document 0's score
formula instance, and document 1's returned entry is positive. -/
theorem keywordSearch_contract_witness :
    (0:ℚ) ≤ specKeywordScore "how reset password" docA.metadata ∧ 0 < resBkw.similarity :=
  ⟨((keywordSearch_contract demoDocs "how reset password" 5).1 docA.metadata).2,
   ((keywordSearch_contract demoDocs "how reset password" 5).2.1 resBkw
     (by with_unfolding_all decide)).1⟩

/-- C7: every loaded document comes from the record at its own original
input index; its question and answer are the trimmed record fields, of
length `≥ 10` and not the literal "nan"; an absent source defaults to
"unknown"; `qa_pair_id` equals the original index; and the stored ids are
strictly increasing (hence unique), with gaps where records were skipped. -/
theorem loadDocuments_invariants :
    (∀ (rows : List QARecord) (d : Document), d ∈ loadDocuments rows →
      ∃ j row, rows[j]? = some row ∧ mkDoc j row = some d ∧ d.metadata.qa_pair_id = j) ∧
    (∀ (i : ℕ) (row : QARecord) (d : Document), mkDoc i row = some d →
      d.metadata.question = jsTrim (row.question.getD "") ∧
      10 ≤ d.metadata.question.length ∧ d.metadata.question ≠ "nan" ∧
      d.metadata.answer = jsTrim (row.answer.getD "") ∧
      10 ≤ d.metadata.answer.length ∧ d.metadata.answer ≠ "nan" ∧
      (row.source = none → d.metadata.source = "unknown") ∧
      d.metadata.qa_pair_id = i) ∧
    (∀ rows : List QARecord,
      ((loadDocuments rows).map (fun d => d.metadata.qa_pair_id)).Pairwise (· < ·)) := by
  refine ⟨fun rows d h => mem_loadDocuments rows d h, ?_, ?_⟩
  · intro i row d h
    obtain ⟨h1, h2, h3, h4, h5, h6, h7, h8, -, -⟩ := mkDoc_fields i row d h
    exact ⟨h1, h3, h4, h2, h5, h6, h7, h8⟩
  · intro rows
    rw [List.pairwise_map]
    exact loadFrom_ids_pairwise rows 0

/-- C7, witness: the per-record facts at demo row 0. -/
theorem loadDocuments_invariants_witness :
    10 ≤ docA.metadata.question.length ∧ docA.metadata.qa_pair_id = 0 :=
  ⟨(loadDocuments_invariants.2.1 0 rowA docA (by decide)).2.1,
   (loadDocuments_invariants.2.1 0 rowA docA (by decide)).2.2.2.2.2.2.2⟩

/-- C8: `tokenize` is a pure function of its input (it is a Lean function);
it returns `[]` on empty and whitespace-only input; and recomputing
`tokenize` on a loaded document's question reproduces exactly the stored
tokens, each of which is lower-case with length `> 2`. -/
theorem tokenize_contract :
    tokenize "" = [] ∧
    (∀ s : String, (∀ c ∈ s.toList, isSpaceChar c = true) → tokenize s = []) ∧
    (∀ (rows : List QARecord) (d : Document), d ∈ loadDocuments rows →
      d.tokens = tokenize d.metadata.question ∧
      ∀ t ∈ d.tokens, jsToLower t = t ∧ 2 < t.length) := by
  refine ⟨rfl, tokenize_all_space, ?_⟩
  intro rows d h
  rcases mem_loadDocuments rows d h with ⟨j, row, -, hmk, -⟩
  have h10 := (mkDoc_fields j row d hmk).2.2.2.2.2.2.2.2.2
  constructor
  · rw [h10, tokenize_jsToLower]
  · intro t ht
    rw [h10] at ht
    exact mem_tokenize t _ ht

/-- C8, witness: whitespace-only input tokenizes to the empty sequence. -/
theorem tokenize_contract_witness : tokenize " \t  " = [] :=
  tokenize_contract.2.1 " \t  " (by decide)

/-- C9: the search path is a total function: on an empty corpus it returns
the empty sequence, a failed corpus load still yields an empty (not
failing) result, and on every corpus the returned list is ranked
(sorted descending by score). -/
theorem search_never_fails (query : String) (k : ℕ) (threshold : ℚ) :
    questionSearch [] query k threshold = [] ∧
    (∀ msg : String, questionSearchE (.ioError msg) query k threshold = []) ∧
    (∀ docs : List Document, (questionSearch docs query k threshold).Pairwise
      (fun a b => b.similarity ≤ a.similarity)) := by
  refine ⟨?_, fun msg => rfl,
    fun docs => (sortByScoreDesc_sorted _).sublist (List.take_sublist k _)⟩
  unfold questionSearch
  rw [show similaritySearch [] query k threshold = [] from by
      unfold similaritySearch
      rw [show sortByScoreDesc (simFiltered [] (tokenize (jsToLower query)) threshold) = []
        from rfl, List.take_nil],
    show keywordSearch [] query k = [] from by
      unfold keywordSearch
      rw [show sortByScoreDesc (kwFiltered [] query) = [] from rfl, List.take_nil]]
  rw [show sortByScoreDesc (dedupByQaId ([] ++ [])) = [] from rfl, List.take_nil]

/-- C9, witness: the empty corpus and the failed load at concrete inputs. -/
theorem search_never_fails_witness :
    questionSearch [] "anything at all" 5 (2/5) = [] ∧
    questionSearchE (.ioError "ENOENT") "anything at all" 5 (2/5) = [] :=
  ⟨(search_never_fails "anything at all" 5 (2/5)).1,
   (search_never_fails "anything at all" 5 (2/5)).2.1 "ENOENT"⟩

/-- C10: the intersection in `calculateQuestionSimilarity` counts query
tokens with multiplicity while the union is over distinct values: on
`["abc","abc","xyz"]` versus `["abc"]` the pre-cap ratio is 1 while the
set Jaccard is 1/2, and deduplicating the query tokens (which leaves the
token SET unchanged) changes the returned score from 1 to 1/2. -/
theorem similarity_counts_multiplicity :
    jsSetDedup ["abc", "abc", "xyz"] = ["abc", "xyz"] ∧
    ["abc", "abc", "xyz"].toFinset = ["abc", "xyz"].toFinset ∧
    jaccardRatio ["abc", "abc", "xyz"] ["abc"] = 1 ∧
    setJaccard ["abc", "abc", "xyz"] ["abc"] = 1/2 ∧
    calculateQuestionSimilarity ["abc", "abc", "xyz"] ["abc"] = some 1 ∧
    calculateQuestionSimilarity (jsSetDedup ["abc", "abc", "xyz"]) ["abc"] = some (1/2) ∧
    calculateQuestionSimilarity ["abc", "abc", "xyz"] ["abc"] ≠
      calculateQuestionSimilarity (jsSetDedup ["abc", "abc", "xyz"]) ["abc"] := by
  with_unfolding_all decide

end SimpleVectorStore
